import Mathlib

/-!
Verification of the file-cache module of the `webdataset` repository
(`src/webdataset/cache.py`), against its natural-language specification.

The development shallowly embeds the Python code:

* Machine integers are `Int`/`Nat` (Python integers are arbitrary precision,
  so no wraparound is modelled).
* The filesystem is an explicit map `Disk := String → Option (List Nat)`
  from paths to file contents (a content byte is a `Nat`).
* Fallible code returns `Except PyErr` values; a Python exception that
  escapes is an `Except.error`.
* External collaborators (the `gopen` transport layer, the pluggable
  error handler, the validator, `os.path.getctime` recency keys) are
  parameters, exactly as they are parameters/attributes in the source.
* Single-threaded execution is assumed throughout, as the claims stipulate
  (no concurrent deletions or size changes).
-/

/-! ## Filesystem and error model -/

/-- A filesystem: a map from path to file content (`none` = no file). -/
def Disk : Type := String → Option (List Nat)

/-- Pointwise update of a filesystem map. -/
def Disk.update (fs : Disk) (p : String) (v : Option (List Nat)) : Disk :=
  fun q => if q = p then v else fs q

/-- Python exceptions that the embedded code can raise. -/
inductive PyErr where
  | attributeError
  | fetchError
  | valueError
deriving DecidableEq

/-! ## LRUCleanup (`cache.py` lines 35-84)

A file seen by the directory walk of `LRUCleanup.cleanup`: its path, its
size in bytes (`os.path.getsize`), and its recency key (`self.keyfn`,
default `os.path.getctime`).  The claims stipulate that no concurrent
deletions or size changes occur, so the two walks of `cleanup` see one and
the same list of files, embedded here as a single input list (in walk
order). -/
structure CacheFile where
  path : String
  size : Nat
  key : Int
deriving DecidableEq

/-- Total size in bytes of a list of files (`total_size` in the source). -/
def sizeSum (l : List CacheFile) : Int :=
  (l.map (fun f => (f.size : Int))).sum

/-- Stable insertion into a list sorted by key in descending order; used to
embed Python's `files.sort(key=self.keyfn, reverse=True)`. -/
def insertDesc (f : CacheFile) : List CacheFile → List CacheFile
  | [] => [f]
  | g :: gs => if g.key < f.key then f :: g :: gs else g :: insertDesc f gs

/-- Sort a file list by recency key, newest first
(`files.sort(key=self.keyfn, reverse=True)` at line 73). -/
def sortDesc (l : List CacheFile) : List CacheFile :=
  l.foldr insertDesc []

/-- The deletion loop of `LRUCleanup.cleanup` (lines 75-80):
`while len(files) > 0 and total_size > self.cache_size:` pop the last
element of the descending-sorted list (the oldest file), subtract its size
from the running total and delete it.  Each iteration removes exactly one
file, so the loop runs at most `files.length` times; the first argument is
that iteration bound, made explicit so the recursion is structural.
Returns the remaining files and the deleted files in deletion order. -/
def evictLoop (cs : Int) : Nat → Int → List CacheFile →
    List CacheFile × List CacheFile
  | 0, _, files => (files, [])
  | fuel + 1, total, files =>
    if h : files ≠ [] ∧ cs < total then
      let f := files.getLast h.1
      let p := evictLoop cs fuel (total - (f.size : Int)) files.dropLast
      (p.1, f :: p.2)
    else
      (files, [])

/-- The scan-and-delete body of `LRUCleanup.cleanup` (lines 62-80): walk the
tree summing sizes; if the total is within `cache_size`, do nothing;
otherwise sort by key descending and run the deletion loop.  Returns
(remaining files, deleted files in deletion order). -/
def cleanupScan (cs : Int) (files : List CacheFile) :
    List CacheFile × List CacheFile :=
  let total := sizeSum files
  if total ≤ cs then (files, [])
  else evictLoop cs (sortDesc files).length total (sortDesc files)

/-- State of an `LRUCleanup` instance: the fields read or written by
`cleanup` (`cache_size`, `interval`, `last_run`).  `interval` is
`Option Int` because the source tests `self.interval is not None`. -/
structure LRUCleanup where
  cache_size : Int
  interval : Option Int
  last_run : Int
deriving DecidableEq

/-- The interval guard of `cleanup` (line 59):
`self.interval is not None and time.time() - self.last_run < self.interval`. -/
def LRUCleanup.intervalBlocks (st : LRUCleanup) (now : Int) : Bool :=
  match st.interval with
  | some iv => decide (now - st.last_run < iv)
  | none => false

/-- Method `LRUCleanup.cleanup` (lines 54-84).  `dirExists` embeds
`os.path.exists(self.cache_dir)`; `now` is the value of `time.time()` at
the guard (line 59) and `nowEnd` its value at the assignment
`self.last_run = time.time()` (line 84).  The under-budget `return` at
lines 66-67 executes *inside* the `try` block (there is no `finally`), so
it exits the method without reaching the line-84 assignment: a scan that
finds the total within `cache_size` leaves `last_run` unchanged, embedded
here as the third branch.  Only a call that finds the total over budget
proceeds to sort, delete, and then update `last_run`; on that branch the
internal under-budget test of `cleanupScan` is false, so `cleanupScan`
is exactly the sort-and-delete loop.  Under the single-threaded
assumption the `except OSError` handler never fires.  Returns
(new state, remaining files, deleted files in deletion order). -/
def LRUCleanup.cleanup (st : LRUCleanup) (dirExists : Bool) (now nowEnd : Int)
    (files : List CacheFile) : LRUCleanup × List CacheFile × List CacheFile :=
  if dirExists = false then (st, files, [])
  else if st.intervalBlocks now then (st, files, [])
  else if sizeSum files ≤ st.cache_size then (st, files, [])
  else
    let p := cleanupScan st.cache_size files
    ({ st with last_run := nowEnd }, p.1, p.2)

/-! ## `download` (`cache.py` lines 87-97) -/

/-- One result of `stream.read(chunk_size)` inside `download`: either a
chunk of bytes (the empty chunk means end of stream, which makes the write
loop `break`), or a raised transport/write error. -/
inductive ReadEv where
  | chunk (data : List Nat)
  | fail
deriving DecidableEq

/-- The write loop of `download` (lines 92-96): consume read results,
appending each chunk to the temporary file, until an empty read (normal
completion, `true`) or a raised error (`false`).  An exhausted event list
without an empty read stands for a transfer that never completed and is
treated as a failure.  Returns (completed?, bytes written so far). -/
def writeLoop : List ReadEv → List Nat → Bool × List Nat
  | [], acc => (false, acc)
  | ReadEv.fail :: _, acc => (false, acc)
  | ReadEv.chunk [] :: _, acc => (true, acc)
  | ReadEv.chunk d :: rest, acc => writeLoop rest (acc ++ d)

/-- The temporary-file name used by `download` (line 89):
`dest + f".temp{os.getpid()}"`. -/
def tempName (dest : String) (pid : Nat) : String :=
  dest ++ ".temp" ++ toString pid

/-- Function `download(url, dest)` (lines 87-97): stream chunks into the temporary
file; only after the stream is exhausted, `os.rename(temp, dest)`.  On a
mid-transfer failure the partial temporary file is left behind and the
rename never happens.  (If `gopen` itself raises before the temporary file
is opened, the model still records an empty temporary file; the canonical
path is untouched either way.)  Returns (completed?, final filesystem). -/
def download (fs : Disk) (url dest : String) (pid : Nat) (evs : List ReadEv) :
    Bool × Disk :=
  let temp := tempName dest pid
  let r := writeLoop evs []
  let fs1 := fs.update temp (some r.2)
  if r.1 then
    (true, (fs1.update dest (some r.2)).update temp none)
  else
    (false, fs1)

/-! ## Character-level string operations

Python string operations work on sequences of code points.  The embedding
works on `String.data : List Char` so that every operation evaluates by
kernel reduction (the built-in `String.startsWith`, `String.splitOn`, ...
are compiled primitives that do not reduce definitionally). -/

/-- Python `s.startswith(p)`. -/
def pyStartsWith (s p : String) : Bool :=
  p.data.isPrefixOf s.data

/-- Python `s[n:]` (drop the first `n` code points). -/
def pyDrop (s : String) (n : Nat) : String :=
  String.mk (s.data.drop n)

/-- Helper for `pySplit`: split a character list on a separator character,
keeping empty pieces, as Python `str.split` with an explicit separator. -/
def splitChars (sep : Char) : List Char → List (List Char)
  | [] => [[]]
  | c :: cs =>
    if c = sep then [] :: splitChars sep cs
    else
      match splitChars sep cs with
      | [] => [[c]]
      | w :: ws => (c :: w) :: ws

/-- Python `s.split(sep)` for a one-character separator (the source splits
on `" "` and `"/"`). -/
def pySplit (s : String) (sep : Char) : List String :=
  (splitChars sep s.data).map String.mk

/-! ## `pipe_cleaner` (`cache.py` lines 100-108) -/

/-- The anchored regular expression test of line 106,
`re.match(r"^(https?|hdfs|gs|ais|s3):", word)`: the word starts with one of
the recognized scheme names followed by a colon. -/
def matchesScheme (w : String) : Bool :=
  pyStartsWith w "http:" || pyStartsWith w "https:" || pyStartsWith w "hdfs:" ||
  pyStartsWith w "gs:" || pyStartsWith w "ais:" || pyStartsWith w "s3:"

/-- Function `pipe_cleaner(spec)` (lines 100-108).  Note that when the input starts
with `"pipe:"` the local variable `spec` is reassigned to the remainder
(line 103), so the fall-through `return spec` at line 108 returns the
stripped string, not the original input. -/
def pipe_cleaner (spec : String) : String :=
  if pyStartsWith spec "pipe:" then
    let rest := pyDrop spec 5
    let words := pySplit rest ' '
    (words.find? matchesScheme).getD rest
  else spec

/-! ## `url_to_cache_name` (`cache.py` lines 111-134) -/

/-- The scheme allow-list of lines 114-125.  The source list also contains
Python `None`, which `urlparse` can never produce for `scheme` (it always
returns a string), so that entry is dead and omitted here. -/
def allowedSchemes : List String :=
  ["", "file", "http", "https", "ftp", "ftps", "gs", "s3", "ais"]

/-- Python's `"/".join(s)` applied to a *string* `s` iterates over the
characters of `s`: it returns the characters of `s` joined by `"/"`. -/
def slashJoinChars (s : String) : String :=
  String.mk (s.data.intersperse '/')

/-- Function `url_to_cache_name(url, ndir)` (lines 111-134), given the `scheme` and
`path` components produced by `urlparse(url)`.  For an allow-listed scheme
the source evaluates
`"/".join(list_of_directories[-1 - ndir])`: it *indexes* a single path
segment (Python index `-1 - ndir`, an `IndexError` when `ndir` is out of
range, embedded as `none`) and then string-joins its characters.  The
non-allow-listed branch references the unbound name `urllib` (only
`urlparse` is imported), so it raises and is embedded as `none`; no claim
depends on it. -/
def url_to_cache_name (scheme path : String) (ndir : Nat) : Option String :=
  if scheme ∈ allowedSchemes then
    let segs := pySplit path '/'
    if h : ndir < segs.length then
      some (slashJoinChars (segs.get ⟨segs.length - 1 - ndir, by omega⟩))
    else none
  else none

/-! ## FileCache (`cache.py` lines 166-244) -/

/-- Default cache directory (`cache.py` line 16) with the `WDS_CACHE`
environment variable unset. -/
def default_cache_dir : String := "./_cache"

/-- State of a `FileCache` instance: the attributes assigned by `__init__`.
The validator is `Option` because `get_file` tests its truthiness
(`if self.validator:`); content-level collaborators (`url_to_name`,
`validator`) are function values, as in the source. -/
structure FileCache where
  url_to_name : String → String
  validator : Option (List Nat → Bool)
  cache_dir : String
  verbose : Bool
  cleaner : Option LRUCleanup

/-- Constructor `FileCache.__init__` (lines 167-193).  When `cache_size > 0` the source
evaluates `self.cache_size` (line 188) — an attribute that is never
assigned anywhere in the class — so Python raises `AttributeError` and the
object is never constructed; this read-before-assignment is embedded as an
error.  Otherwise `self.cleaner = None`. -/
def FileCache.init (url_to_name : String → String) (cache_dir : Option String)
    (verbose : Bool) (validator : Option (List Nat → Bool))
    (cache_size : Int) : Except PyErr FileCache :=
  let cd := match cache_dir with
    | none => default_cache_dir
    | some d => d
  if cache_size > 0 then
    Except.error PyErr.attributeError
  else
    Except.ok { url_to_name := url_to_name, validator := validator,
                cache_dir := cd, verbose := verbose, cleaner := none }

/-- Outcome of one `FileCache.get_file` call: the returned path or the
raised exception, the filesystem afterwards, and how many times the
downloader, the validator and the eviction sweeper were invoked during the
call. -/
structure GetFileOut where
  result : Except PyErr String
  fs : Disk
  downloads : Nat
  validations : Nat
  cleanups : Nat

/-- The destination path `os.path.join(self.cache_dir, cache_name)`
computed by `get_file` (line 199), for a relative `cache_name`. -/
def FileCache.destPath (st : FileCache) (url : String) : String :=
  st.cache_dir ++ "/" ++ st.url_to_name url

/-- Method `FileCache.get_file` (lines 195-216).  `fetch` abstracts the outcome of
`download(url, dest)`: `some content` means the transfer completed and the
rename published `content` at `dest`; `none` means the download raised,
leaving `dest` untouched (established independently for `download` by
`download_atomic`).  On a cache hit (`os.path.exists(dest)`) the path is
returned immediately: no cleanup, no download, no validation.  On a miss,
the sweeper runs first when `self.cleaner is not None`, then the download,
then — when a validator is present — the validation, which on rejection
removes the file and raises `ValueError`.  (Directory creation by
`os.makedirs` has no observable effect in this model and is omitted.) -/
def FileCache.get_file (st : FileCache) (fetch : String → Option (List Nat))
    (fs : Disk) (url : String) : GetFileOut :=
  let dest := st.destPath url
  if (fs dest).isSome then
    { result := Except.ok dest, fs := fs,
      downloads := 0, validations := 0, cleanups := 0 }
  else
    let cl := if st.cleaner.isSome then 1 else 0
    match fetch url with
    | none =>
      { result := Except.error PyErr.fetchError, fs := fs,
        downloads := 1, validations := 0, cleanups := cl }
    | some content =>
      let fs1 := fs.update dest (some content)
      match st.validator with
      | none =>
        { result := Except.ok dest, fs := fs1,
          downloads := 1, validations := 0, cleanups := cl }
      | some v =>
        if v content then
          { result := Except.ok dest, fs := fs1,
            downloads := 1, validations := 1, cleanups := cl }
        else
          { result := Except.error PyErr.valueError,
            fs := fs1.update dest none,
            downloads := 1, validations := 1, cleanups := cl }

/-! ## `FileCache.__call__` (`cache.py` lines 232-244)

The control flow of the per-URL retry loop, parametric in the outcome of
the `try` body.  `attempt t` is the outcome of attempt number `t` for the
current URL: `Except.ok a` when the body runs to the `yield` with record
`a` (the dict of url, stream and local path), `Except.error e` when it
raises `e`.  Note two properties of the source, embedded faithfully:

* a successful iteration is not followed by a `break`, so after yielding
  the `for _ in range(10)` loop proceeds to the next attempt;
* the `break` in the handler branch terminates only the inner retry loop;
  the outer loop over URLs continues.

(As written, the body `self.open_file(self.get_file(url), "rb")` always
raises `TypeError`, because `open_file` accepts a single argument; the
parametric `attempt` also covers that behaviour, as the oracle that always
returns an error.) -/

/-- The inner `for _ in range(10)` loop of `__call__`, starting at attempt
`t` with `fuel` iterations left; returns the list of yielded records. -/
def retryAttempts {ε α : Type} (handler : ε → Bool)
    (attempt : Nat → Except ε α) : Nat → Nat → List α
  | _, 0 => []
  | t, fuel + 1 =>
    match attempt t with
    | Except.ok a => a :: retryAttempts handler attempt (t + 1) fuel
    | Except.error e =>
      if handler e then retryAttempts handler attempt (t + 1) fuel
      else []

/-- The full retry loop for one URL: ten attempts starting at attempt 0. -/
def fileCacheInner {ε α : Type} (handler : ε → Bool)
    (attempt : Nat → Except ε α) : List α :=
  retryAttempts handler attempt 0 10

/-- The outer loop of `__call__` over the input URLs (each url is a plain
string here; the `isinstance(url, dict)` normalization is identity on
strings).  The yielded dict is embedded as the pair (url, record). -/
def fileCacheCall {ε α : Type} (handler : ε → Bool)
    (attempt : String → Nat → Except ε α) : List String → List (String × α)
  | [] => []
  | u :: rest =>
    (fileCacheInner handler (attempt u)).map (fun a => (u, a)) ++
      fileCacheCall handler attempt rest

/-! ## Helper lemmas about sizes and sorting -/

theorem sizeSum_append (l₁ l₂ : List CacheFile) :
    sizeSum (l₁ ++ l₂) = sizeSum l₁ + sizeSum l₂ := by
  simp [sizeSum]

theorem sizeSum_perm {l₁ l₂ : List CacheFile} (h : l₁.Perm l₂) :
    sizeSum l₁ = sizeSum l₂ :=
  (h.map _).sum_eq

theorem sizeSum_reverse (l : List CacheFile) :
    sizeSum l.reverse = sizeSum l :=
  sizeSum_perm (List.reverse_perm l)

theorem insertDesc_perm (f : CacheFile) (l : List CacheFile) :
    (insertDesc f l).Perm (f :: l) := by
  induction l with
  | nil => exact List.Perm.refl _
  | cons g gs ih =>
    by_cases h : g.key < f.key
    · simp [insertDesc, h]
    · simp only [insertDesc, if_neg h]
      exact (ih.cons g).trans (List.Perm.swap f g gs)

theorem sortDesc_perm (l : List CacheFile) : (sortDesc l).Perm l := by
  induction l with
  | nil => exact List.Perm.refl _
  | cons f fs ih =>
    exact (insertDesc_perm f (sortDesc fs)).trans (ih.cons f)

theorem pairwise_insertDesc (f : CacheFile) {l : List CacheFile}
    (h : l.Pairwise (fun a b => b.key ≤ a.key)) :
    (insertDesc f l).Pairwise (fun a b => b.key ≤ a.key) := by
  induction l with
  | nil => simp [insertDesc]
  | cons g gs ih =>
    rcases List.pairwise_cons.mp h with ⟨hg, hgs⟩
    by_cases hk : g.key < f.key
    · simp only [insertDesc, if_pos hk]
      refine List.pairwise_cons.mpr ⟨?_, h⟩
      intro x hx
      rcases List.mem_cons.mp hx with rfl | hx
      · exact le_of_lt hk
      · exact le_trans (hg x hx) (le_of_lt hk)
    · simp only [insertDesc, if_neg hk]
      refine List.pairwise_cons.mpr ⟨?_, ih hgs⟩
      intro x hx
      rcases List.mem_cons.mp ((insertDesc_perm f gs).mem_iff.mp hx) with rfl | hx
      · exact le_of_not_lt hk
      · exact hg x hx

theorem sortDesc_sorted (l : List CacheFile) :
    (sortDesc l).Pairwise (fun a b => b.key ≤ a.key) := by
  induction l with
  | nil => simp [sortDesc]
  | cons f fs ih => exact pairwise_insertDesc f ih

/-- Characterization of the deletion loop when started on a list `s` with
`total = sizeSum s` and enough fuel: for some cut index `k`, the first `k`
files of `s` remain, the files from index `k` on are deleted in
reverse (oldest-first) order, the loop stopped only once under budget or
out of files, and every deletion took place while the running total still
exceeded the budget. -/
theorem evictLoop_cons (cs : Int) (fuel : Nat) (total : Int)
    (files : List CacheFile) (h : files ≠ [] ∧ cs < total) :
    evictLoop cs (fuel + 1) total files =
      ((evictLoop cs fuel (total - ((files.getLast h.1).size : Int))
          files.dropLast).1,
        files.getLast h.1 ::
          (evictLoop cs fuel (total - ((files.getLast h.1).size : Int))
            files.dropLast).2) := by
  rw [evictLoop, dif_pos h]

theorem evictLoop_spec (cs : Int) :
    ∀ (fuel : Nat) (s : List CacheFile), s.length ≤ fuel →
    ∃ k, k ≤ s.length ∧
      evictLoop cs fuel (sizeSum s) s = (s.take k, (s.drop k).reverse) ∧
      (sizeSum (s.take k) ≤ cs ∨ k = 0) ∧
      (∀ j, k ≤ j → j < s.length → cs < sizeSum (s.take (j + 1))) := by
  intro fuel
  induction fuel with
  | zero =>
    intro s hs
    have hnil : s = [] := List.length_eq_zero.mp (Nat.le_zero.mp hs)
    subst hnil
    exact ⟨0, le_rfl, rfl, Or.inr rfl, by intro j _ hj; simp at hj⟩
  | succ fuel ih =>
    intro s hs
    by_cases hc : s ≠ [] ∧ cs < sizeSum s
    · rcases List.eq_nil_or_concat s with rfl | ⟨s', f, rfl⟩
      · exact absurd rfl hc.1
      rw [List.concat_eq_append] at *
      have hlen : (s' ++ [f]).length = s'.length + 1 := by simp
      have hsum : sizeSum (s' ++ [f]) = sizeSum s' + (f.size : Int) := by
        rw [sizeSum_append]; simp [sizeSum]
      have hfuel : s'.length ≤ fuel := by omega
      obtain ⟨k, hk, heq, hstop, hrun⟩ := ih s' hfuel
      refine ⟨k, by simp; omega, ?_, ?_, ?_⟩
      · rw [evictLoop_cons cs fuel _ _ hc, List.getLast_concat,
          List.dropLast_concat]
        have harg : sizeSum (s' ++ [f]) - (f.size : Int) = sizeSum s' := by
          omega
        rw [harg, heq, List.take_append_of_le_length hk,
          List.drop_append_of_le_length hk]
        simp
      · rw [List.take_append_of_le_length hk]
        exact hstop
      · intro j hkj hjs
        rw [hlen] at hjs
        by_cases hj : j < s'.length
        · rw [List.take_append_of_le_length (by omega)]
          exact hrun j hkj hj
        · have hj' : j + 1 = (s' ++ [f]).length := by rw [hlen]; omega
          rw [hj', List.take_length]
          exact hc.2
    · refine ⟨s.length, le_rfl, ?_, ?_, ?_⟩
      · rw [evictLoop, dif_neg hc, List.take_length, List.drop_length,
          List.reverse_nil]
      · rcases not_and_or.mp hc with hnil | hle
        · have : s = [] := not_not.mp hnil
          subst this
          exact Or.inr rfl
        · rw [List.take_length]
          exact Or.inl (le_of_not_lt hle)
      · intro j hkj hjs
        omega

/-- Restatement of `evictLoop_spec` at the level of `cleanupScan`, for the
over-budget case. -/
theorem cleanupScan_spec (cs : Int) (files : List CacheFile)
    (h : ¬ sizeSum files ≤ cs) :
    ∃ k, k ≤ (sortDesc files).length ∧
      cleanupScan cs files =
        ((sortDesc files).take k, ((sortDesc files).drop k).reverse) ∧
      (sizeSum ((sortDesc files).take k) ≤ cs ∨ k = 0) ∧
      (∀ j, k ≤ j → j < (sortDesc files).length →
        cs < sizeSum ((sortDesc files).take (j + 1))) := by
  have hsum : sizeSum (sortDesc files) = sizeSum files :=
    sizeSum_perm (sortDesc_perm files)
  obtain ⟨k, hk, heq, hstop, hrun⟩ :=
    evictLoop_spec cs (sortDesc files).length (sortDesc files) le_rfl
  rw [hsum] at heq
  refine ⟨k, hk, ?_, hstop, hrun⟩
  simp only [cleanupScan, if_neg h]
  exact heq

/-- After `cleanupScan` with a nonnegative budget, the remaining files fit
in the budget. -/
theorem cleanupScan_bound (cs : Int) (files : List CacheFile)
    (hcs : 0 ≤ cs) : sizeSum (cleanupScan cs files).1 ≤ cs := by
  by_cases h : sizeSum files ≤ cs
  · simp only [cleanupScan, if_pos h]
    exact h
  · obtain ⟨k, _, heq, hstop, -⟩ := cleanupScan_spec cs files h
    rw [heq]
    rcases hstop with hle | hzero
    · exact hle
    · subst hzero
      simp [sizeSum]
      exact hcs

/-- The descending sort of a list with pairwise-distinct keys is strictly
descending. -/
theorem sortDesc_strict (files : List CacheFile)
    (hdist : files.Pairwise (fun a b => a.key ≠ b.key)) :
    (sortDesc files).Pairwise (fun a b => b.key < a.key) := by
  have h1 := sortDesc_sorted files
  have h2 : (sortDesc files).Pairwise (fun a b => a.key ≠ b.key) :=
    (List.Perm.pairwise_iff (fun hxy => hxy.symm) (sortDesc_perm files)).mpr
      hdist
  exact (h1.and h2).imp (fun hab => lt_of_le_of_ne hab.1 (Ne.symm hab.2))

/-- Eviction order at the level of `cleanupScan`: with pairwise-distinct
keys, the deleted list is strictly ascending in key (oldest first), every
deletion happened while the running total still exceeded the budget, and
any file strictly newer than the last deleted file remains. -/
theorem cleanupScan_order (cs : Int) (files : List CacheFile)
    (hdist : files.Pairwise (fun a b => a.key ≠ b.key)) :
    (cleanupScan cs files).2.Pairwise (fun a b => a.key < b.key) ∧
    (∀ i, i < (cleanupScan cs files).2.length →
      cs < sizeSum files - sizeSum ((cleanupScan cs files).2.take i)) ∧
    (∀ g ∈ files, ∀ f, (cleanupScan cs files).2.getLast? = some f →
      f.key < g.key → g ∈ (cleanupScan cs files).1) := by
  by_cases h : sizeSum files ≤ cs
  · refine ⟨?_, ?_, ?_⟩
    · simp [cleanupScan, h]
    · intro i hi
      simp [cleanupScan, h] at hi
    · intro g hg f hf
      simp [cleanupScan, h] at hf
  · obtain ⟨k, hk, heq, hstop, hrun⟩ := cleanupScan_spec cs files h
    have hS : sizeSum (sortDesc files) = sizeSum files :=
      sizeSum_perm (sortDesc_perm files)
    have hstrict := sortDesc_strict files hdist
    have hpair1 : (cleanupScan cs files).2.Pairwise
        (fun a b => a.key < b.key) := by
      rw [heq]
      exact List.pairwise_reverse.mpr
        (hstrict.sublist (List.drop_sublist k (sortDesc files)))
    refine ⟨hpair1, ?_, ?_⟩
    · intro i hi
      rw [heq] at hi ⊢
      simp only [List.length_reverse, List.length_drop] at hi
      have hdti :
          (((sortDesc files).drop k).reverse).take i =
            ((sortDesc files).drop ((sortDesc files).length - i)).reverse := by
        rw [List.take_reverse, List.length_drop, List.drop_drop]
        have harith : k + ((sortDesc files).length - k - i) =
            (sortDesc files).length - i := by omega
        rw [harith]
      rw [hdti, sizeSum_reverse]
      have hsplitsum :
          sizeSum ((sortDesc files).take ((sortDesc files).length - i)) +
            sizeSum ((sortDesc files).drop ((sortDesc files).length - i)) =
            sizeSum (sortDesc files) := by
        rw [← sizeSum_append, List.take_append_drop]
      have hj := hrun ((sortDesc files).length - i - 1) (by omega) (by omega)
      have hj1 : (sortDesc files).length - i - 1 + 1 =
          (sortDesc files).length - i := by omega
      rw [hj1] at hj
      omega
    · intro g hg f hf hkey
      rw [heq] at hf ⊢
      have hgS : g ∈ sortDesc files := (sortDesc_perm files).mem_iff.mpr hg
      rcases List.mem_append.mp
          ((List.take_append_drop k (sortDesc files)) ▸ hgS) with htk | hdk
      · exact htk
      · exfalso
        have hgd : g ∈ ((sortDesc files).drop k).reverse :=
          List.mem_reverse.mpr hdk
        have hdne : ((sortDesc files).drop k).reverse ≠ [] := by
          intro hnil
          rw [hnil] at hf
          simp at hf
        have hfeq : f = (((sortDesc files).drop k).reverse).getLast hdne := by
          have := List.getLast?_eq_getLast_of_ne_nil hdne
          rw [hf] at this
          exact Option.some_injective _ this
        have hdecomp :=
          List.dropLast_append_getLast (l := ((sortDesc files).drop k).reverse)
            hdne
        have hpair1' := hpair1
        rw [heq, ← hdecomp] at hpair1'
        rcases List.pairwise_append.mp hpair1' with ⟨-, -, hcross⟩
        have hglef : g.key ≤ f.key := by
          rcases List.mem_append.mp (hdecomp ▸ hgd) with hgdl | hgl
          · rw [hfeq]
            exact le_of_lt (hcross g hgdl _ (List.mem_singleton_self _))
          · have : g = (((sortDesc files).drop k).reverse).getLast hdne :=
              List.mem_singleton.mp hgl
            rw [this, ← hfeq]
        exact absurd hkey (not_lt_of_le hglef)

/-! ## Further helper lemmas -/

theorem tempName_ne (dest : String) (pid : Nat) : tempName dest pid ≠ dest := by
  intro h
  have hlen := congrArg String.length h
  have h5 : (".temp" : String).length = 5 := rfl
  rw [tempName, String.length_append, String.length_append, h5] at hlen
  omega

theorem Disk.update_same (fs : Disk) (p : String) (v : Option (List Nat)) :
    (fs.update p v) p = v := by
  simp [Disk.update]

theorem Disk.update_other (fs : Disk) (p q : String) (v : Option (List Nat))
    (h : q ≠ p) : (fs.update p v) q = fs q := by
  simp [Disk.update, h]

theorem retryAttempts_stop {ε α : Type} (handler : ε → Bool)
    (attempt : Nat → Except ε α) (t fuel : Nat) (e : ε)
    (h1 : attempt t = Except.error e) (h2 : handler e = false) :
    retryAttempts handler attempt t (fuel + 1) = [] := by
  simp [retryAttempts, h1, h2]

theorem get_file_cleanups_of_cleaner_none (st : FileCache)
    (h : st.cleaner = none) (fetch : String → Option (List Nat)) (fs : Disk)
    (url : String) : (st.get_file fetch fs url).cleanups = 0 := by
  unfold FileCache.get_file
  by_cases hhit : (fs (st.destPath url)).isSome
  · simp [hhit]
  · simp only [hhit, Bool.false_eq_true, if_false, h, Option.isSome_none,
      if_neg]
    rcases fetch url with _ | content
    · rfl
    · rcases st.validator with _ | v
      · rfl
      · by_cases hv : v content <;> simp [hv]

/-! ## Concrete instances used by witnesses and counterexamples -/

/-- A concrete error handler that always answers `false` (stop). -/
def alwaysStopHandler : Nat → Bool := fun _ => false

/-- A concrete attempt oracle: every attempt for URL `"u1"` raises error
`0`; every attempt for any other URL reaches the yield with record `7`. -/
def attemptOracle : String → Nat → Except Nat Nat :=
  fun u _ => if u = "u1" then Except.error 0 else Except.ok 7

/-- A concrete successfully-constructed `FileCache` with no validator. -/
def simpleCache : FileCache :=
  { url_to_name := fun u => u, validator := none, cache_dir := "./_cache",
    verbose := false, cleaner := none }

/-- A concrete successfully-constructed `FileCache` whose validator accepts
everything. -/
def simpleValCache : FileCache :=
  { url_to_name := fun u => u, validator := some (fun _ => true),
    cache_dir := "./_cache", verbose := false, cleaner := none }

/-! ## Claim theorems -/

/-- C1.  The claim says a successful open is yielded exactly once, after
which the retry loop for that URL ends.  In the source, a successful
iteration of the `for _ in range(10)` loop is not followed by a `break`,
so a URL whose attempts all succeed is re-attempted and yielded on every
one of the ten iterations: the inner loop of `__call__`, run with an
attempt oracle that always succeeds with record `0`, yields ten copies of
the record rather than one.  (Moreover, as written the loop body calls
`self.open_file(self.get_file(url), "rb")` — two arguments for a
one-argument method — so every attempt actually raises `TypeError` and no
open ever succeeds; the oracle form covers that behaviour too.) -/
theorem fileCacheCall_reyields_after_success :
    fileCacheInner (fun _ : Unit => true) (fun _ => Except.ok (0 : Nat)) =
      List.replicate 10 0 ∧
    List.replicate 10 (0 : Nat) ≠ [0] := by
  constructor
  · decide
  · decide

/-- C2, counterexample.  The claim says that when the handler returns
`false` for an error on some URL the whole output sequence stops, with no
result for any later URL.  Here the handler returns `false` on the error
raised for `"u1"`, yet the later URL `"u2"` still yields a result: the
`break` in the handler branch of `__call__` exits only the inner retry
loop, and the outer loop over URLs continues. -/
theorem fileCacheCall_handler_false_later_url_still_yields :
    attemptOracle "u1" 0 = Except.error 0 ∧
    alwaysStopHandler 0 = false ∧
    ("u2", 7) ∈ fileCacheCall alwaysStopHandler attemptOracle ["u1", "u2"] := by
  refine ⟨rfl, rfl, by decide⟩

/-- C2, as amended.  When the handler returns `false` for an error raised
on a URL's first attempt, the retry loop for that URL ends with nothing
yielded for it, and processing continues with the later URLs, whose
results are exactly those of running the loop on them alone. -/
theorem fileCacheCall_handler_false_skips_current_url {ε α : Type}
    (handler : ε → Bool) (attempt : String → Nat → Except ε α)
    (u : String) (rest : List String) (e : ε)
    (h1 : attempt u 0 = Except.error e) (h2 : handler e = false) :
    fileCacheCall handler attempt (u :: rest) =
      fileCacheCall handler attempt rest := by
  have hinner : fileCacheInner handler (attempt u) = [] := by
    show retryAttempts handler (attempt u) 0 10 = []
    exact retryAttempts_stop handler (attempt u) 0 9 e h1 h2
  show (fileCacheInner handler (attempt u)).map _ ++ _ = _
  rw [hinner]
  simp

/-- C2, witness for the amended theorem at a concrete input. -/
theorem fileCacheCall_handler_false_skips_current_url_witness :
    attemptOracle "u1" 0 = Except.error 0 ∧
    alwaysStopHandler 0 = false ∧
    fileCacheCall alwaysStopHandler attemptOracle ["u1", "u2"] =
      fileCacheCall alwaysStopHandler attemptOracle ["u2"] :=
  ⟨rfl, rfl,
    fileCacheCall_handler_false_skips_current_url alwaysStopHandler
      attemptOracle "u1" ["u2"] 0 rfl rfl⟩

/-- C3.  Constructing a `FileCache` with `cache_size > 0` raises
`AttributeError`, because line 188 reads the never-assigned attribute
`self.cache_size`; consequently every successfully constructed `FileCache`
has `cleaner = None`, and its `get_file` never invokes the eviction
sweeper. -/
theorem fileCache_init_cache_size_attribute_error
    (u2n : String → String) (cd : Option String) (vb : Bool)
    (vald : Option (List Nat → Bool)) (cs : Int) (st : FileCache) :
    (0 < cs → FileCache.init u2n cd vb vald cs =
      Except.error PyErr.attributeError) ∧
    (FileCache.init u2n cd vb vald cs = Except.ok st →
      st.cleaner = none ∧
      ∀ fetch fs url, (st.get_file fetch fs url).cleanups = 0) := by
  constructor
  · intro h
    simp [FileCache.init, h]
  · intro h
    by_cases hcs : cs > 0
    · simp [FileCache.init, hcs] at h
    · simp only [FileCache.init, if_neg hcs, Except.ok.injEq] at h
      have hclean : st.cleaner = none := by rw [← h]
      exact ⟨hclean,
        fun fetch fs url =>
          get_file_cleanups_of_cleaner_none st hclean fetch fs url⟩

/-- C3, witness: `cache_size = 1` makes construction fail, and the
concrete constructed cache (with `cache_size = -1`) has no cleaner and
performs no cleanup inside `get_file`. -/
theorem fileCache_init_cache_size_attribute_error_witness :
    FileCache.init (fun u => u) none false none 1 =
      Except.error PyErr.attributeError ∧
    simpleCache.cleaner = none ∧
    (simpleCache.get_file (fun _ => some [1]) (fun _ => none) "u").cleanups
      = 0 := by
  have hinit : FileCache.init (fun u => u) none false none (-1) =
      Except.ok simpleCache := by
    unfold FileCache.init
    rw [if_neg (by decide)]
    rfl
  refine ⟨(fileCache_init_cache_size_attribute_error (fun u => u) none false
    none 1 simpleCache).1 (by decide), ?_, ?_⟩
  · exact ((fileCache_init_cache_size_attribute_error (fun u => u) none false
      none (-1) simpleCache).2 hinit).1
  · exact ((fileCache_init_cache_size_attribute_error (fun u => u) none false
      none (-1) simpleCache).2 hinit).2 (fun _ => some [1]) (fun _ => none) "u"

/-- C4, counterexample.  The claim quantifies over every completed
`cleanup` run whose scan executed and in which no single file exceeds
`cache_size`.  With a negative `cache_size` (here `-1`, the sentinel value
`FileCache` itself uses for "disabled") and an empty cache directory, the
scan runs, the no-oversized-file hypothesis holds vacuously, yet the total
size of the remaining files (0) is not at most `cache_size`. -/
theorem cleanup_bound_fails_for_negative_budget :
    (∀ f ∈ ([] : List CacheFile), (f.size : Int) ≤ (-1 : Int)) ∧
    LRUCleanup.intervalBlocks ⟨-1, some 30, 0⟩ 1000 = false ∧
    ¬ sizeSum ((LRUCleanup.cleanup ⟨-1, some 30, 0⟩ true 1000 1001
        []).2.1) ≤ (-1 : Int) := by
  refine ⟨?_, by decide, by decide⟩
  intro f hf
  simp at hf

/-- C4, as amended.  After a `cleanup` run in which the scan executed
(the directory exists and the interval guard passes), with no concurrent
deletions or size changes, a *nonnegative* `cache_size`, and no single
file individually exceeding `cache_size`, the total size of the files
remaining under the cache directory is at most `cache_size`. -/
theorem cleanup_eviction_bound (st : LRUCleanup) (dirExists : Bool)
    (now nowEnd : Int) (files : List CacheFile)
    (hcs : 0 ≤ st.cache_size)
    (_hfiles : ∀ f ∈ files, (f.size : Int) ≤ st.cache_size)
    (hdir : dirExists = true) (hguard : st.intervalBlocks now = false) :
    sizeSum (st.cleanup dirExists now nowEnd files).2.1 ≤ st.cache_size := by
  subst hdir
  by_cases hb : sizeSum files ≤ st.cache_size
  · simp only [LRUCleanup.cleanup, hguard, Bool.true_eq_false, if_false,
      Bool.false_eq_true, if_pos hb]
    exact hb
  · simp only [LRUCleanup.cleanup, hguard, Bool.true_eq_false, if_false,
      Bool.false_eq_true, if_neg hb]
    exact cleanupScan_bound st.cache_size files hcs

/-- C4, witness for the amended theorem at a concrete input: budget 100,
two files of size 60 each; the sweep deletes the older file and the
remaining total 60 fits the budget. -/
theorem cleanup_eviction_bound_witness :
    (0 : Int) ≤ (100 : Int) ∧
    (∀ f ∈ [(⟨"a", 60, 1⟩ : CacheFile), ⟨"b", 60, 2⟩],
      (f.size : Int) ≤ (100 : Int)) ∧
    LRUCleanup.intervalBlocks ⟨100, none, 0⟩ 5 = false ∧
    sizeSum ((LRUCleanup.cleanup ⟨100, none, 0⟩ true 5 6
      [⟨"a", 60, 1⟩, ⟨"b", 60, 2⟩]).2.1) ≤ (100 : Int) :=
  ⟨by decide, by decide, by decide,
    cleanup_eviction_bound ⟨100, none, 0⟩ true 5 6
      [⟨"a", 60, 1⟩, ⟨"b", 60, 2⟩] (by decide) (by decide) rfl (by decide)⟩

/-- C5.  During a `LRUCleanup.cleanup` run over files with pairwise
distinct recency keys: the deleted files form a strictly ascending key
sequence (deletions occur oldest-first); every deletion happened while the
running total still exceeded `cache_size` (the loop stops as soon as the
total is within budget); and every file whose key is newer than the last
deleted file's key remains. -/
theorem cleanup_eviction_order (st : LRUCleanup) (dirExists : Bool)
    (now nowEnd : Int) (files : List CacheFile)
    (hdist : files.Pairwise (fun a b => a.key ≠ b.key)) :
    (st.cleanup dirExists now nowEnd files).2.2.Pairwise
        (fun a b => a.key < b.key) ∧
    (∀ i, i < (st.cleanup dirExists now nowEnd files).2.2.length →
      st.cache_size < sizeSum files -
        sizeSum ((st.cleanup dirExists now nowEnd files).2.2.take i)) ∧
    (∀ g ∈ files, ∀ f,
      (st.cleanup dirExists now nowEnd files).2.2.getLast? = some f →
      f.key < g.key → g ∈ (st.cleanup dirExists now nowEnd files).2.1) := by
  cases dirExists with
  | false =>
    refine ⟨by simp [LRUCleanup.cleanup], ?_, ?_⟩
    · intro i hi
      simp [LRUCleanup.cleanup] at hi
    · intro g hg f hf
      simp [LRUCleanup.cleanup] at hf
  | true =>
    cases hguard : st.intervalBlocks now with
    | true =>
      refine ⟨by simp [LRUCleanup.cleanup, hguard], ?_, ?_⟩
      · intro i hi
        simp [LRUCleanup.cleanup, hguard] at hi
      · intro g hg f hf
        simp [LRUCleanup.cleanup, hguard] at hf
    | false =>
      by_cases hb : sizeSum files ≤ st.cache_size
      · refine ⟨by simp [LRUCleanup.cleanup, hguard, hb], ?_, ?_⟩
        · intro i hi
          simp [LRUCleanup.cleanup, hguard, hb] at hi
        · intro g hg f hf
          simp [LRUCleanup.cleanup, hguard, hb] at hf
      · simp only [LRUCleanup.cleanup, hguard, Bool.true_eq_false, if_false,
          Bool.false_eq_true, if_neg hb]
        exact cleanupScan_order st.cache_size files hdist

/-- C5, witness at a concrete input: budget 70, three files with distinct
keys; the two oldest are deleted (oldest first) and the newest remains. -/
theorem cleanup_eviction_order_witness :
    ([(⟨"a", 50, 3⟩ : CacheFile), ⟨"b", 60, 1⟩, ⟨"c", 30, 2⟩].Pairwise
      (fun a b => a.key ≠ b.key)) ∧
    ((LRUCleanup.cleanup ⟨70, none, 0⟩ true 5 6
        [⟨"a", 50, 3⟩, ⟨"b", 60, 1⟩, ⟨"c", 30, 2⟩]).2.2.Pairwise
        (fun a b => a.key < b.key) ∧
    (∀ i, i < (LRUCleanup.cleanup ⟨70, none, 0⟩ true 5 6
        [⟨"a", 50, 3⟩, ⟨"b", 60, 1⟩, ⟨"c", 30, 2⟩]).2.2.length →
      (70 : Int) < sizeSum [⟨"a", 50, 3⟩, ⟨"b", 60, 1⟩, ⟨"c", 30, 2⟩] -
        sizeSum ((LRUCleanup.cleanup ⟨70, none, 0⟩ true 5 6
          [⟨"a", 50, 3⟩, ⟨"b", 60, 1⟩, ⟨"c", 30, 2⟩]).2.2.take i)) ∧
    (∀ g ∈ [(⟨"a", 50, 3⟩ : CacheFile), ⟨"b", 60, 1⟩, ⟨"c", 30, 2⟩], ∀ f,
      (LRUCleanup.cleanup ⟨70, none, 0⟩ true 5 6
        [⟨"a", 50, 3⟩, ⟨"b", 60, 1⟩, ⟨"c", 30, 2⟩]).2.2.getLast? = some f →
      f.key < g.key → g ∈ (LRUCleanup.cleanup ⟨70, none, 0⟩ true 5 6
        [⟨"a", 50, 3⟩, ⟨"b", 60, 1⟩, ⟨"c", 30, 2⟩]).2.1)) :=
  ⟨by decide,
    cleanup_eviction_order ⟨70, none, 0⟩ true 5 6
      [⟨"a", 50, 3⟩, ⟨"b", 60, 1⟩, ⟨"c", 30, 2⟩] (by decide)⟩

/-- C6.  The claim says `last_run` is updated at the end of every call
whose scan executed, *including* a scan that finds the total at or under
`cache_size` and deletes nothing.  The source does not do this: the
under-budget `return` at cache.py lines 66-67 executes inside the `try`
block (no `finally`), exiting the method before the
`self.last_run = time.time()` assignment at line 84, so an under-budget
scan leaves `last_run` unchanged — and the next call re-walks the
directory regardless of the interval, defeating the rate-limit the spec
describes ("sweeping twice within the interval window is a no-op the
second time regardless of size").  Concretely: guards pass (directory
exists, interval elapsed: 1000 - 0 ≥ 30), one 10-byte file against budget
100 — the scan runs, deletes nothing, and `last_run` stays 0 instead of
becoming the end-of-call time 1001; the same call on an over-budget
200-byte file does update `last_run` to 1001. -/
theorem cleanup_last_run_not_updated_when_under_budget :
    LRUCleanup.intervalBlocks ⟨100, some 30, 0⟩ 1000 = false ∧
    sizeSum [⟨"a", 10, 1⟩] ≤ (100 : Int) ∧
    (LRUCleanup.cleanup ⟨100, some 30, 0⟩ true 1000 1001
      [⟨"a", 10, 1⟩]).1.last_run = 0 ∧
    (0 : Int) ≠ 1001 ∧
    (LRUCleanup.cleanup ⟨100, some 30, 0⟩ true 1000 1001
      [⟨"a", 200, 1⟩]).1.last_run = 1001 := by
  refine ⟨by decide, by decide, by decide, by decide, by decide⟩

/-- C7.  The claim says `url_to_cache_name` returns the last `ndir+1`
slash-separated path segments joined with a separator — for `ndir = 0` the
basename.  The source instead *indexes* a single segment
(`list_of_directories[-1 - ndir]`, not a slice) and then evaluates
`"/".join(segment)`, which joins the *characters* of that one segment: for
the URL path `/a/b/cd` it returns `"c/d"` at `ndir = 0` (the claim says
`"cd"`) and `"b"` at `ndir = 1` (the claim says `"b/cd"`). -/
theorem url_to_cache_name_joins_characters :
    url_to_cache_name "http" "/a/b/cd" 0 = some "c/d" ∧
    url_to_cache_name "http" "/a/b/cd" 1 = some "b" ∧
    some "c/d" ≠ some "cd" ∧ some "b" ≠ some "b/cd" := by
  refine ⟨by decide, by decide, by decide, by decide⟩

/-- C8, counterexample.  The claim says that with no URL-scheme token
among the words, the *original* input is returned unchanged even when it
starts with `"pipe:"`.  For `"pipe:cat foo.tar"` no word matches a scheme
(neither in the original nor in the stripped string), yet `pipe_cleaner`
returns the `"pipe:"`-stripped remainder, not the original. -/
theorem pipe_cleaner_strips_pipe_despite_no_match :
    (∀ w ∈ pySplit "pipe:cat foo.tar" ' ', matchesScheme w = false) ∧
    (∀ w ∈ pySplit (pyDrop "pipe:cat foo.tar" 5) ' ',
      matchesScheme w = false) ∧
    pipe_cleaner "pipe:cat foo.tar" = "cat foo.tar" ∧
    pipe_cleaner "pipe:cat foo.tar" ≠ "pipe:cat foo.tar" := by
  refine ⟨by decide, by decide, by decide, by decide⟩

/-- C8, as amended.  When no word of the string that `pipe_cleaner`
actually scans (the input, stripped of a leading `"pipe:"` when present)
matches a recognized URL-scheme token, the input is returned unchanged if
it does not start with `"pipe:"`, and the input minus the 5-character
`"pipe:"` position prefix is returned if it does. -/
theorem pipe_cleaner_no_scheme_token (spec : String)
    (h : ∀ w ∈ pySplit (if pyStartsWith spec "pipe:" then pyDrop spec 5
        else spec) ' ', matchesScheme w = false) :
    pipe_cleaner spec =
      if pyStartsWith spec "pipe:" then pyDrop spec 5 else spec := by
  by_cases hp : pyStartsWith spec "pipe:" = true
  · rw [if_pos hp] at h ⊢
    unfold pipe_cleaner
    rw [if_pos hp]
    have hnone : (pySplit (pyDrop spec 5) ' ').find? matchesScheme = none :=
      List.find?_eq_none.mpr (fun x hx => by simp [h x hx])
    show ((pySplit (pyDrop spec 5) ' ').find? matchesScheme).getD
      (pyDrop spec 5) = pyDrop spec 5
    rw [hnone]
    rfl
  · rw [if_neg hp]
    unfold pipe_cleaner
    rw [if_neg hp]

/-- C8, witness for the amended theorem at a concrete input. -/
theorem pipe_cleaner_no_scheme_token_witness :
    (∀ w ∈ pySplit (if pyStartsWith "pipe:cat foo.tar" "pipe:" then
        pyDrop "pipe:cat foo.tar" 5 else "pipe:cat foo.tar") ' ',
      matchesScheme w = false) ∧
    pipe_cleaner "pipe:cat foo.tar" =
      (if pyStartsWith "pipe:cat foo.tar" "pipe:" then
        pyDrop "pipe:cat foo.tar" 5 else "pipe:cat foo.tar") :=
  ⟨by decide, pipe_cleaner_no_scheme_token "pipe:cat foo.tar" (by decide)⟩

/-- C9.  `download` completes exactly when the read loop reached an empty
read (the stream was exhausted): in that case the canonical path `dest`
holds all fetched bytes and the temporary file is gone (renamed); if any
read or write failed before completion, `dest` is untouched (in particular
never created when absent before) and the partial bytes sit only in the
temporary file `dest + ".temp" + pid`. -/
theorem download_atomic (fs : Disk) (url dest : String) (pid : Nat)
    (evs : List ReadEv) :
    (download fs url dest pid evs).1 = (writeLoop evs []).1 ∧
    (download fs url dest pid evs).2 dest =
      (if (writeLoop evs []).1 then some (writeLoop evs []).2
        else fs dest) ∧
    (download fs url dest pid evs).2 (tempName dest pid) =
      (if (writeLoop evs []).1 then none
        else some (writeLoop evs []).2) := by
  have hne : dest ≠ tempName dest pid := Ne.symm (tempName_ne dest pid)
  unfold download
  cases hw : (writeLoop evs []).1 with
  | false =>
    refine ⟨by simp [hw], ?_, ?_⟩
    · simp only [hw, if_false, Bool.false_eq_true]
      exact Disk.update_other fs (tempName dest pid) dest _ hne
    · simp only [hw, if_false, Bool.false_eq_true]
      exact Disk.update_same fs (tempName dest pid) _
  | true =>
    refine ⟨by simp [hw], ?_, ?_⟩
    · simp only [hw, if_true]
      rw [Disk.update_other _ (tempName dest pid) dest none hne]
      exact Disk.update_same _ dest _
    · simp only [hw, if_true]
      exact Disk.update_same _ (tempName dest pid) none

/-- A `get_file` call that finds the destination path present returns it
immediately: same filesystem, no download, no validation, no cleanup. -/
theorem get_file_hit (st : FileCache) (fetch : String → Option (List Nat))
    (fs : Disk) (url : String) (h : (fs (st.destPath url)).isSome = true) :
    st.get_file fetch fs url =
      { result := Except.ok (st.destPath url), fs := fs, downloads := 0,
        validations := 0, cleanups := 0 } := by
  simp only [FileCache.get_file, h, if_true]

/-- C10.  A successful `get_file` call starting from a cache miss performs
exactly one download, and a second call with the same URL (and no
intervening deletion) is a pure cache hit: it returns the same path and
the same filesystem and invokes neither the downloader nor the validator
(nor the sweeper) — presence of the file at the destination path is
sufficient. -/
theorem get_file_idempotent_hit (st : FileCache)
    (fetch : String → Option (List Nat)) (fs : Disk) (url dest : String)
    (hmiss : fs (st.destPath url) = none)
    (h1 : (st.get_file fetch fs url).result = Except.ok dest) :
    (st.get_file fetch fs url).downloads = 1 ∧
    st.get_file fetch (st.get_file fetch fs url).fs url =
      { result := Except.ok dest, fs := (st.get_file fetch fs url).fs,
        downloads := 0, validations := 0, cleanups := 0 } := by
  have hhit : (fs (st.destPath url)).isSome = false := by rw [hmiss]; rfl
  rcases hf : fetch url with _ | content
  · exfalso
    simp only [FileCache.get_file, hhit, Bool.false_eq_true, if_false,
      hf] at h1
    exact absurd h1 (by simp)
  · rcases hv : st.validator with _ | v
    · have hfirst : st.get_file fetch fs url =
          { result := Except.ok (st.destPath url),
            fs := fs.update (st.destPath url) (some content),
            downloads := 1, validations := 0,
            cleanups := if st.cleaner.isSome then 1 else 0 } := by
        simp only [FileCache.get_file, hhit, Bool.false_eq_true, if_false,
          hf, hv]
      have hdest : dest = st.destPath url := by
        rw [hfirst] at h1
        simpa using h1.symm
      rw [hfirst, hdest]
      refine ⟨rfl, ?_⟩
      exact get_file_hit st fetch _ url (by simp [Disk.update_same])
    · by_cases hvc : v content = true
      · have hfirst : st.get_file fetch fs url =
            { result := Except.ok (st.destPath url),
              fs := fs.update (st.destPath url) (some content),
              downloads := 1, validations := 1,
              cleanups := if st.cleaner.isSome then 1 else 0 } := by
          simp only [FileCache.get_file, hhit, Bool.false_eq_true, if_false,
            hf, hv, hvc, if_true]
        have hdest : dest = st.destPath url := by
          rw [hfirst] at h1
          simpa using h1.symm
        rw [hfirst, hdest]
        refine ⟨rfl, ?_⟩
        exact get_file_hit st fetch _ url (by simp [Disk.update_same])
      · exfalso
        simp only [FileCache.get_file, hhit, Bool.false_eq_true, if_false,
          hf, hv, hvc] at h1
        exact absurd h1 (by simp)

/-- C10, witness at a concrete input: an all-accepting validator, a fetch
that returns `[7]`, an empty filesystem, and the URL `"u"`. -/
theorem get_file_idempotent_hit_witness :
    ((fun _ => none : Disk) (simpleValCache.destPath "u") = none) ∧
    (simpleValCache.get_file (fun _ => some [7]) (fun _ => none)
      "u").result = Except.ok "./_cache/u" ∧
    ((simpleValCache.get_file (fun _ => some [7]) (fun _ => none)
        "u").downloads = 1 ∧
      simpleValCache.get_file (fun _ => some [7])
          (simpleValCache.get_file (fun _ => some [7]) (fun _ => none)
            "u").fs "u" =
        { result := Except.ok "./_cache/u",
          fs := (simpleValCache.get_file (fun _ => some [7])
            (fun _ => none) "u").fs,
          downloads := 0, validations := 0, cleanups := 0 }) := by
  have h2 : (simpleValCache.get_file (fun _ => some [7]) (fun _ => none)
      "u").result = Except.ok "./_cache/u" := by
    simp [FileCache.get_file, simpleValCache, FileCache.destPath]
  exact ⟨rfl, h2,
    get_file_idempotent_hit simpleValCache (fun _ => some [7])
      (fun _ => none) "u" "./_cache/u" rfl h2⟩
